import Mathlib

/-!
Verification of the RecFix backend recommendation pipeline
(`server/src/services/youtubeService.js` and
`server/src/controllers/youtubeController.js`).

The JavaScript source is shallowly embedded: pure functions become Lean
functions, the two external API calls (video details, related-video
search) become an explicit `Api` record of oracles, exceptions become
`Except`/`Option` results, and JavaScript builtins (`String.includes`,
the duration regex, `new URL`, `Date` parsing, `Math.random`) are
modelled by explicit executable Lean functions or by function
parameters where the builtin is an unconstrained environment input.
-/

/-! ## Data model: the external API's video records -/

/-- The `id` field of a video record: absent, a non-string object
(search results carry an object id), or a string. -/
inductive IdVal where
  | missing : IdVal
  | obj : IdVal
  | str (s : String) : IdVal
deriving DecidableEq, Repr

/-- `contentDetails.dimension`. -/
structure Dimension where
  height : Nat
  width : Nat
deriving DecidableEq, Repr

/-- `contentDetails` of a video record. -/
structure ContentDetails where
  duration : String
  dimension : Option Dimension
deriving DecidableEq, Repr

/-- `snippet` of a video record. -/
structure Snippet where
  title : String
  description : String
  channelId : String
  tags : Option (List String)
  publishedAt : String
deriving DecidableEq, Repr

/-- `statistics` of a video record (stringly typed, as the API returns it). -/
structure Statistics where
  viewCount : String
  likeCount : String
deriving DecidableEq, Repr

/-- A video record as returned by the external API. -/
structure VideoItem where
  id : IdVal
  snippet : Option Snippet
  contentDetails : Option ContentDetails
  statistics : Option Statistics
deriving DecidableEq, Repr

/-! ## JavaScript string builtins -/

/-- Does the list start with the given segment (`startsWith` on char lists)? -/
def startsWithSeg : List Char → List Char → Bool
  | _, [] => true
  | [], _ :: _ => false
  | h :: hs, p :: ps => decide (h = p) && startsWithSeg hs ps

/-- Does `pat` occur as a contiguous segment of the list
(JavaScript `String.prototype.includes` on char lists)? -/
def hasSub (pat : List Char) : List Char → Bool
  | [] => pat.isEmpty
  | c :: cs => startsWithSeg (c :: cs) pat || hasSub pat cs

/-- JavaScript `s.includes(pat)`. -/
def containsSub (s pat : String) : Bool :=
  hasSub pat.toList s.toList

/-- JavaScript `arr.join(sep)` for string arrays. -/
def joinSep (sep : String) : List String → String
  | [] => ""
  | [x] => x
  | x :: y :: rest => x ++ sep ++ joinSep sep (y :: rest)

/-! ## `parseDuration` (youtubeService.js lines 30-39)

The source matches the string against the regex `PT(\d+H)?(\d+M)?(\d+S)?`
and sums `parseInt` of the captured groups.  A string with no occurrence
of `PT` makes `match` return `null` and the group access throw a
`TypeError`; this is modelled by `none`. -/

/-- Numeric value of a digit run (`parseInt` on a captured group such as
`"12H"`, whose leading digits are exactly the run). -/
def digitsVal (ds : List Char) : Nat :=
  ds.foldl (fun acc c => 10 * acc + (c.toNat - 48)) 0

/-- Match one optional regex group `(\d+X)?` at the head of the
character list: a nonempty digit run immediately followed by the suffix
letter.  On failure the group captures nothing and consumes no input. -/
def groupNum (suffix : Char) (cs : List Char) : Option Nat × List Char :=
  match cs.takeWhile Char.isDigit, cs.dropWhile Char.isDigit with
  | _ :: _, c :: rest =>
      if c = suffix then (some (digitsVal (cs.takeWhile Char.isDigit)), rest)
      else (none, cs)
  | _, _ => (none, cs)

/-- The `M` and `S` groups, matched in sequence after the `H` group. -/
def groups2 (r1 : List Char) : Option Nat × Option Nat :=
  match groupNum 'M' r1 with
  | (m, r2) =>
      match groupNum 'S' r2 with
      | (s, _) => (m, s)

/-- The three optional groups `(\d+H)?(\d+M)?(\d+S)?` matched in sequence. -/
def groups3 (r0 : List Char) : Option Nat × Option Nat × Option Nat :=
  match groupNum 'H' r0 with
  | (h, r1) => (h, groups2 r1)

/-- First match of `PT(\d+H)?(\d+M)?(\d+S)?`: scan for the first literal
`PT`, then match the three optional groups.  `none` means the regex does
not match anywhere (the JavaScript code then crashes). -/
def ptMatch : List Char → Option (Option Nat × Option Nat × Option Nat)
  | [] => none
  | c :: cs =>
      if c = 'P' && startsWithSeg cs ['T'] then some (groups3 cs.tail)
      else ptMatch cs

/-- `parseDuration`: total seconds from the matched groups; `none` models
the `TypeError` thrown on a non-matching string. -/
def parseDuration (duration : String) : Option Nat :=
  (ptMatch duration.toList).map fun g =>
    3600 * g.1.getD 0 + 60 * g.2.1.getD 0 + g.2.2.getD 0

/-! ## `isYoutubeShort` (youtubeService.js lines 6-28) -/

/-- The shorts marker substrings of the source. -/
def shortsKeywords : List String :=
  ["#shorts", "#short", "#ytshorts", "shorts/", "/shorts", "youtube.com/shorts"]

/-- Does the `id` field pass `video.id && typeof video.id === 'string' &&
video.id.includes('/shorts/')`? -/
def idHasShorts : IdVal → Bool
  | IdVal.str s => !s.isEmpty && containsSub s ("/shorts/")
  | _ => false

/-- `toLowerCase()`, character by character. -/
def lowerStr (s : String) : String :=
  String.mk (s.toList.map Char.toLower)

/-- The text searched for shorts markers: title, description and tags
joined by spaces, lowercased. -/
def shortsText (sn : Snippet) : String :=
  lowerStr (sn.title ++ " " ++ sn.description ++ " " ++ joinSep " " (sn.tags.getD []))

/-- `isYoutubeShort`: `some b` is the returned boolean; `none` models the
exception propagated from `parseDuration` on an unmatchable duration. -/
def isYoutubeShort (video : VideoItem) : Option Bool :=
  match video.contentDetails, video.snippet with
  | none, _ => some true
  | some _, none => some true
  | some cd, some sn =>
      match parseDuration cd.duration with
      | none => none
      | some dur =>
          if dur < 180 then some true
          else if shortsKeywords.any (fun k => containsSub (shortsText sn) k) then some true
          else if idHasShorts video.id then some true
          else
            match cd.dimension with
            | some dim => if dim.width < dim.height then some true else some false
            | none => some false

/-! ## `extractVideoId` (youtubeService.js lines 278-290)

`new URL(url)` is a platform builtin; it is modelled here for the URL
shapes the service handles: `scheme://[userinfo@]host[:port][/path][?query][#fragment]`.
A string without a `scheme://` part, or with an empty host, fails to
parse (the builtin throws for these service-relevant inputs), which the
source catches and turns into `null`.  Percent-decoding is not modelled
(video ids and hosts in this pipeline contain no escapes). -/

/-- Parsed URL: lowercased host, path (with leading slash, `/` when
empty) and the raw query characters. -/
structure URLObj where
  hostname : String
  pathname : String
  query : List Char
deriving DecidableEq, Repr

/-- Split a char list at the first `p`-satisfying char: (before, rest-from-that-char). -/
def breakList (p : Char → Bool) (cs : List Char) : List Char × List Char :=
  (cs.takeWhile (fun c => !p c), cs.dropWhile (fun c => !p c))

/-- The segment after the last occurrence of `ch` (the whole list when absent). -/
def afterLast (ch : Char) (cs : List Char) : List Char :=
  ((cs.reverse).takeWhile (fun c => !decide (c = ch))).reverse

/-- Split at the first occurrence of the literal `://`: (scheme chars, rest). -/
def splitScheme : List Char → Option (List Char × List Char)
  | [] => none
  | c :: cs =>
      if startsWithSeg (c :: cs) [':', '/', '/'] then some ([], cs.drop 2)
      else (splitScheme cs).map fun p => (c :: p.1, p.2)

/-- Characters allowed in a URL scheme after the initial letter. -/
def isSchemeChar (c : Char) : Bool :=
  c.isAlphanum || c = '+' || c = '-' || c = '.'

/-- Split a char list on a separator character. -/
def splitOnChar (sep : Char) : List Char → List (List Char)
  | [] => [[]]
  | c :: rest =>
      if c = sep then [] :: splitOnChar sep rest
      else
        match splitOnChar sep rest with
        | [] => [[c]]
        | g :: gs => (c :: g) :: gs

/-- Model of `new URL(s)` for the service-relevant shapes; `none` models
the thrown `TypeError`. -/
def parseURL (s : String) : Option URLObj :=
  match splitScheme s.toList with
  | none => none
  | some (scheme, rest) =>
      match scheme with
      | [] => none
      | c0 :: crest =>
          if c0.isAlpha && crest.all isSchemeChar then
            let (authority, tail0) := breakList (fun c => c = '/' || c = '?' || c = '#') rest
            let hostport := afterLast '@' authority
            let host := (hostport.takeWhile (fun c => !decide (c = ':'))).map Char.toLower
            if host.isEmpty then none
            else
              let (path, qf) := breakList (fun c => c = '?' || c = '#') tail0
              let pathname := if path.isEmpty then ['/'] else path
              let query :=
                match qf with
                | '?' :: qrest => qrest.takeWhile (fun c => !decide (c = '#'))
                | _ => []
              some { hostname := String.mk host, pathname := String.mk pathname, query := query }
          else none

/-- `URLSearchParams` pairs: split the query on `&`, drop empty pieces,
key before the first `=`, value after it (empty when no `=`). -/
def queryPairs (q : List Char) : List (String × String) :=
  (splitOnChar '&' q).filterMap fun part =>
    match part with
    | [] => none
    | _ :: _ =>
        let (k, v) := breakList (fun c => c = '=') part
        some (String.mk k, String.mk (v.drop 1))

/-- `searchParams.get(name)`: value of the first pair with that key,
`none` for the JavaScript `null`. -/
def searchParamsGet (q : List Char) (name : String) : Option String :=
  ((queryPairs q).find? (fun p => p.1 == name)).map (fun p => p.2)

/-- `extractVideoId`: `v` query parameter for `youtube.com` hosts, path
without the leading slash for `youtu.be` hosts, `none` otherwise or on a
parse failure (the catch turns the exception into `null`). -/
def extractVideoId (url : String) : Option String :=
  match parseURL url with
  | none => none
  | some u =>
      if containsSub u.hostname ("youtube.com") then searchParamsGet u.query ("v")
      else if containsSub u.hostname ("youtu.be") then some (u.pathname.drop 1)
      else none

/-- JavaScript truthiness of a string-or-null: `null` and the empty
string are falsy (`if (!videoId) continue`, `.filter(Boolean)`). -/
def presentId : Option String → Option String
  | some s => if s.isEmpty then none else some s
  | none => none

/-! ## The external API and error model

`getVideoDetails` (lines 41-60) wraps the details call in try/catch and
returns `null` both on an upstream error and on an empty item list, so
it is one oracle returning `Option VideoItem`.  The related-video search
(lines 62-99) either throws an error (optionally carrying an HTTP-ish
`code`, which the controller special-cases) or returns an item list with
an optional continuation token. -/

/-- Result page of one external search call. -/
structure SearchPage where
  items : List VideoItem
  nextPageToken : Option String
deriving DecidableEq

/-- Outcome of the raw `youtube.search.list` call. -/
inductive SearchRes where
  | err (code : Option Nat) : SearchRes
  | ok (page : SearchPage) : SearchRes
deriving DecidableEq

/-- The external API as an oracle: `details` is `getVideoDetails`
(`none` on error or not-found), `search` is the raw related-video query,
keyed by the details record and the page token passed through. -/
structure Api where
  details : String → Option VideoItem
  search : VideoItem → Option String → SearchRes

/-- Errors thrown inside the service, as the controller's catch sees
them (`code` is what `error.code` yields). -/
inductive PErr where
  /-- An error thrown by the external search call, with its `code`. -/
  | upstream (code : Option Nat) : PErr
  /-- `Error('No related videos found')` (no `code`). -/
  | noRelated : PErr
  /-- `Error('No recommendations found')` (no `code`). -/
  | noRecommendations : PErr
  /-- `TypeError` from `parseDuration` inside the shorts filter. -/
  | filterCrash : PErr
deriving DecidableEq

/-- Page returned by `processVideoUrls`. -/
structure ResultPage where
  items : List VideoItem
  nextPageToken : Option String
deriving DecidableEq

/-- `MAX_RESULTS` (youtubeService.js line 4). -/
def MAX_RESULTS : Nat := 15

/-- `getRelatedVideos` (lines 62-99): rethrows upstream errors, throws
`noRelated` when the upstream item list is empty. -/
def getRelatedVideos (api : Api) (videoDetails : VideoItem) (pageToken : Option String) :
    Except PErr SearchPage :=
  match api.search videoDetails pageToken with
  | SearchRes.err c => Except.error (PErr.upstream c)
  | SearchRes.ok page =>
      if page.items.isEmpty then Except.error PErr.noRelated else Except.ok page

/-- The `for (const url of videoUrls)` loop of `processVideoUrls`
(lines 105-124): skip a URL whose id extraction fails (`!videoId`), skip
a URL whose details fetch returns `null`, propagate a related-videos
failure, and append each source's items in order. -/
def collectResults (api : Api) (pageToken : Option String) :
    List String → Except PErr (List VideoItem)
  | [] => Except.ok []
  | url :: rest =>
      match presentId (extractVideoId url) with
      | none => collectResults api pageToken rest
      | some videoId =>
          match api.details videoId with
          | none => collectResults api pageToken rest
          | some videoDetails =>
              match getRelatedVideos api videoDetails pageToken with
              | Except.error e => Except.error e
              | Except.ok page =>
                  match collectResults api pageToken rest with
                  | Except.error e => Except.error e
                  | Except.ok acc =>
                      Except.ok (if page.items.isEmpty then acc else page.items ++ acc)

/-- `results.filter(video => !isYoutubeShort(video))`: the first
filter-callback exception aborts the whole filter. -/
def filterShorts : List VideoItem → Except PErr (List VideoItem)
  | [] => Except.ok []
  | v :: vs =>
      match isYoutubeShort v with
      | none => Except.error PErr.filterCrash
      | some b =>
          match filterShorts vs with
          | Except.error e => Except.error e
          | Except.ok rest => Except.ok (if b then rest else v :: rest)

/-- `processVideoUrls` (lines 101-143): collect related videos across
sources, throw `noRecommendations` on an empty pool, filter shorts,
truncate to `MAX_RESULTS`, and return the caller's own `pageToken` as
the page's `nextPageToken`. -/
def processVideoUrls (videoUrls : List String) (api : Api) (pageToken : Option String) :
    Except PErr ResultPage :=
  match collectResults api pageToken videoUrls with
  | Except.error e => Except.error e
  | Except.ok results =>
      if results.isEmpty then Except.error PErr.noRecommendations
      else
        match filterShorts results with
        | Except.error e => Except.error e
        | Except.ok kept =>
            Except.ok { items := kept.take MAX_RESULTS, nextPageToken := pageToken }

/-! ## `processTakeoutFile` (youtubeService.js lines 145-167)

`new Date(entry.time)` is a platform builtin; it is modelled by a
caller-supplied valuation `tv : String → Int` of timestamp strings.
The descending sort `(a, b) => new Date(b.time) - new Date(a.time)` is a
stable sort (ECMAScript requires `Array.prototype.sort` stability),
modelled by `List.mergeSort`. -/

/-- One Google Takeout watch-history entry. -/
structure HistoryEntry where
  titleUrl : String
  time : String
deriving DecidableEq

/-- The filter-sort-slice stage of `processTakeoutFile`: keep
`youtube.com/watch` entries, sort descending by timestamp, take 10. -/
def recentWatchEntries (tv : String → Int) (watchHistory : List HistoryEntry) :
    List HistoryEntry :=
  ((watchHistory.filter fun e => containsSub e.titleUrl ("youtube.com/watch")).mergeSort
      fun a b => decide (tv b.time ≤ tv a.time)).take 10

/-- Insertion-ordered de-duplication (the `Set` of video ids). -/
def dedupFirst : List String → List String
  | [] => []
  | x :: xs => x :: dedupFirst (xs.filter fun y => decide (y ≠ x))
termination_by l => l.length
decreasing_by
  simp only [List.length_cons]
  exact Nat.lt_succ_of_le (List.length_filter_le _ _)

/-- The video ids collected into the `Set`, in insertion order. -/
def takeoutIds (tv : String → Int) (watchHistory : List HistoryEntry) : List String :=
  dedupFirst ((recentWatchEntries tv watchHistory).filterMap fun e =>
    presentId (extractVideoId e.titleUrl))

/-- The synthetic watch URLs handed to `processVideoUrls`. -/
def takeoutUrls (tv : String → Int) (watchHistory : List HistoryEntry) : List String :=
  (takeoutIds tv watchHistory).map fun id => "https://youtube.com/watch?v=" ++ id

/-- `processTakeoutFile`: build the synthetic URL list and delegate
(with no page token). -/
def processTakeoutFile (tv : String → Int) (watchHistory : List HistoryEntry) (api : Api) :
    Except PErr ResultPage :=
  processVideoUrls (takeoutUrls tv watchHistory) api none

/-! ## `handleUrlInput` (youtubeController.js lines 4-90) -/

/-- The controller's observable responses. -/
inductive UResp where
  /-- 400 `Please provide valid YouTube URLs`. -/
  | invalidUrls : UResp
  /-- 400 `Maximum 5 URLs allowed at once ...`. -/
  | tooManyUrls : UResp
  /-- 400 `No valid YouTube URLs found`. -/
  | noValidIds : UResp
  /-- 404 `No recommendations found. Try different videos.` -/
  | emptyRecs : UResp
  /-- 200 with the recommendations payload. -/
  | success (page : ResultPage) : UResp
  /-- 403 `YouTube API quota exceeded ...` (from `error.code === 403`). -/
  | quotaExceeded : UResp
  /-- 404 `One or more videos not found ...` (from `error.code === 404`). -/
  | videoNotFound : UResp
  /-- 500 `Failed to get recommendations`. -/
  | serverError : UResp
deriving DecidableEq

/-- Which response the catch block produces for a thrown error. -/
def errResponse : PErr → UResp
  | PErr.upstream (some 403) => UResp.quotaExceeded
  | PErr.upstream (some 404) => UResp.videoNotFound
  | PErr.upstream _ => UResp.serverError
  | _ => UResp.serverError

/-- `handleUrlInput`: request validation, the service call, the
empty-page check, and the catch block's error translation. -/
def handleUrlInput (urls : List String) (api : Api) (pageToken : Option String) : UResp :=
  if urls.isEmpty then UResp.invalidUrls
  else if 5 < urls.length then UResp.tooManyUrls
  else if (urls.filterMap fun u => presentId (extractVideoId u)).isEmpty then UResp.noValidIds
  else
    match processVideoUrls urls api pageToken with
    | Except.error e => errResponse e
    | Except.ok page =>
        if page.items.isEmpty then UResp.emptyRecs else UResp.success page

/-! ## `shuffleWithRelevance` (youtubeService.js lines 249-276)

`Math.random()` draws are modelled by an arbitrary function supplying,
for each chunk and each loop index `i`, a number reduced mod `i + 1`
(exactly the range `Math.floor(Math.random() * (i + 1))` can produce).
Items are JavaScript objects, hence truthy, so `if (chunk[i])` is an
in-bounds test. -/

/-- Swap two positions of a list (`[chunk[i], chunk[j]] = [chunk[j], chunk[i]]`);
out-of-range indices leave the list unchanged (never hit by the loop). -/
def swapL (l : List α) (i j : Nat) : List α :=
  match l[i]?, l[j]? with
  | some a, some b => (l.set i b).set j a
  | _, _ => l

/-- The Fisher-Yates loop `for (let i = chunk.length - 1; i > 0; i--)`,
counting the loop variable down; `rand i % (i + 1)` is the drawn `j`. -/
def fyGo (rand : Nat → Nat) : Nat → List α → List α
  | 0, l => l
  | i + 1, l => fyGo rand i (swapL l (i + 1) (rand (i + 1) % (i + 2)))

/-- In-chunk shuffle: run the loop from index `length - 1`. -/
def fisherYates (rand : Nat → Nat) (chunk : List α) : List α :=
  fyGo rand (chunk.length - 1) chunk

/-- The chunking loop `for (let i = 0; i < videos.length; i += chunkSize)`:
successive slices of `chunkSize` items. -/
def chunksOf (chunkSize : Nat) (videos : List α) : List (List α) :=
  if h : videos.isEmpty || chunkSize == 0 then []
  else videos.take chunkSize :: chunksOf chunkSize (videos.drop chunkSize)
termination_by videos.length
decreasing_by
  simp only [Bool.or_eq_true, List.isEmpty_iff, beq_iff_eq] at h
  push_neg at h
  simp only [List.length_drop]
  have h1 : videos.length ≠ 0 := fun hl => h.1 (List.eq_nil_of_length_eq_zero hl)
  omega

/-- `chunks.forEach(chunk => ...)` applying an independent shuffle to each
chunk, with the chunk's position selecting its stream of random draws. -/
def shuffledChunks (rand : Nat → Nat → Nat) : Nat → List (List α) → List (List α)
  | _, [] => []
  | k, c :: cs => fisherYates (rand k) c :: shuffledChunks rand (k + 1) cs

/-- `Math.max(...chunks.map(chunk => chunk.length))`, with the empty
spread giving no loop iterations (modelled as 0 rows). -/
def maxLen (chunks : List (List α)) : Nat :=
  chunks.foldr (fun c acc => max c.length acc) 0

/-- The interleaving loop: row `i` takes the `i`-th element of each
chunk that still has one. -/
def interleave (chunks : List (List α)) : List α :=
  ((List.range (maxLen chunks)).map (fun i => chunks.filterMap (fun ck => ck[i]?))).flatten

/-- `shuffleWithRelevance`: chunk into thirds (`Math.ceil(videos.length / 3)`),
shuffle within each chunk, interleave. -/
def shuffleWithRelevance (rand : Nat → Nat → Nat) (videos : List α) : List α :=
  let chunkSize := (videos.length + 2) / 3
  interleave (shuffledChunks rand 0 (chunksOf chunkSize videos))

/-! ## The popularity term of `calculateRelevanceScore`
(youtubeService.js lines 208-214)

JavaScript numbers in this term are modelled by rationals extended with
the two non-finite values the term can produce: `-Infinity`
(`Math.log10(0)`) and `NaN` (`Math.log10` of a negative).  The value of
`Math.log10` on positive arguments is an uninterpreted parameter
`log10`. -/

/-- A JavaScript number as this scoring term can see it. -/
inductive JVal where
  | num (q : ℚ) : JVal
  | negInf : JVal
  | nan : JVal
deriving DecidableEq

/-- `Math.min` on two such values (`NaN` wins, then `-Infinity`). -/
def jsMin : JVal → JVal → JVal
  | JVal.nan, _ => JVal.nan
  | _, JVal.nan => JVal.nan
  | JVal.negInf, _ => JVal.negInf
  | _, JVal.negInf => JVal.negInf
  | JVal.num a, JVal.num b => JVal.num (min a b)

/-- Division by 10. -/
def jsDiv10 : JVal → JVal
  | JVal.num a => JVal.num (a / 10)
  | JVal.negInf => JVal.negInf
  | JVal.nan => JVal.nan

/-- Addition (`score += term`); `+Infinity` never arises here. -/
def jsAdd : JVal → JVal → JVal
  | JVal.nan, _ => JVal.nan
  | _, JVal.nan => JVal.nan
  | JVal.negInf, _ => JVal.negInf
  | _, JVal.negInf => JVal.negInf
  | JVal.num a, JVal.num b => JVal.num (a + b)

/-- `Math.log10` on an integer argument: finite (uninterpreted) on
positives, `-Infinity` at 0, `NaN` on negatives. -/
def jsLog10 (log10 : Int → ℚ) (v : Int) : JVal :=
  if 0 < v then JVal.num (log10 v) else if v = 0 then JVal.negInf else JVal.nan

/-- `parseInt(s) || 0` for the decimal count strings of the API:
leading spaces, optional sign, leading digit run; no digits (`NaN`)
falls back to 0. -/
def jsParseIntOr0 (s : String) : Int :=
  match s.toList.dropWhile (fun c => c = ' ') with
  | '-' :: rest => -(Int.ofNat (digitsVal (rest.takeWhile Char.isDigit)))
  | '+' :: rest => Int.ofNat (digitsVal (rest.takeWhile Char.isDigit))
  | cs => Int.ofNat (digitsVal (cs.takeWhile Char.isDigit))

/-- Line 213: `Math.min(0.4, Math.log10(viewCount) / 10)`. -/
def popularityScore (log10 : Int → ℚ) (viewCount : Int) : JVal :=
  jsMin (JVal.num (2 / 5)) (jsDiv10 (jsLog10 log10 viewCount))

/-! ## Lemmas about the duration regex -/

theorem takeWhile_all_append (p : Char → Bool) (ds : List Char) (x : Char) (rest : List Char)
    (hds : ∀ cc ∈ ds, p cc = true) (hx : p x = false) :
    (ds ++ x :: rest).takeWhile p = ds ∧ (ds ++ x :: rest).dropWhile p = x :: rest := by
  induction ds with
  | nil => simp [List.takeWhile_cons, List.dropWhile_cons, hx]
  | cons d ds ih =>
      have hd : p d = true := hds d (List.mem_cons_self d ds)
      have ih' := ih fun cc hcc => hds cc (List.mem_cons_of_mem d hcc)
      simp [List.takeWhile_cons, List.dropWhile_cons, hd, ih'.1, ih'.2]

theorem groupNum_hit (suffix : Char) (ds : List Char) (rest : List Char)
    (hne : ds ≠ []) (hd : ∀ cc ∈ ds, cc.isDigit = true) (hs : suffix.isDigit = false) :
    groupNum suffix (ds ++ suffix :: rest) = (some (digitsVal ds), rest) := by
  have h := takeWhile_all_append Char.isDigit ds suffix rest hd hs
  obtain ⟨d, ds', rfl⟩ : ∃ d ds', ds = d :: ds' := by
    cases ds with
    | nil => exact absurd rfl hne
    | cons d ds' => exact ⟨d, ds', rfl⟩
  have h1 := h.1
  have h2 := h.2
  simp only [List.cons_append] at h1 h2
  simp [groupNum, h1, h2]

theorem groupNum_miss (suffix : Char) (ds : List Char) (x : Char) (rest : List Char)
    (hd : ∀ cc ∈ ds, cc.isDigit = true) (hx : x.isDigit = false) (hxs : x ≠ suffix) :
    groupNum suffix (ds ++ x :: rest) = (none, ds ++ x :: rest) := by
  have h := takeWhile_all_append Char.isDigit ds x rest hd hx
  cases ds with
  | nil => simp_all [groupNum]
  | cons d ds' =>
      have h1 := h.1
      have h2 := h.2
      simp only [List.cons_append] at h1 h2
      simp [groupNum, h1, h2, hxs]

theorem groupNum_nil (suffix : Char) : groupNum suffix [] = (none, []) := rfl

/-- Render one optional integer component of a duration string:
absent when the digit list is empty, otherwise digits followed by the
unit letter. -/
def optPart (dsx : List Char) (u : Char) : List Char :=
  if dsx = [] then [] else dsx ++ [u]


theorem groups2_nil : groups2 [] = (none, none) := rfl

theorem groups2_onlyS (ds : List Char) (hds : ds ≠ []) (hs : ∀ cc ∈ ds, cc.isDigit = true) :
    groups2 (ds ++ ['S']) = (none, some (digitsVal ds)) := by
  have hmiss := groupNum_miss 'M' ds 'S' [] hs (by decide) (by decide)
  have hhit := groupNum_hit 'S' ds [] hds hs (by decide)
  simp [groups2, hmiss, hhit]

theorem groups2_onlyM (dm : List Char) (hdm : dm ≠ []) (hm : ∀ cc ∈ dm, cc.isDigit = true) :
    groups2 (dm ++ ['M']) = (some (digitsVal dm), none) := by
  have hhit := groupNum_hit 'M' dm [] hdm hm (by decide)
  simp [groups2, hhit, groupNum_nil]

theorem groups2_both (dm ds : List Char) (hdm : dm ≠ []) (hds : ds ≠ [])
    (hm : ∀ cc ∈ dm, cc.isDigit = true) (hs : ∀ cc ∈ ds, cc.isDigit = true) :
    groups2 (dm ++ 'M' :: (ds ++ ['S'])) = (some (digitsVal dm), some (digitsVal ds)) := by
  have hhitM := groupNum_hit 'M' dm (ds ++ ['S']) hdm hm (by decide)
  have hhitS := groupNum_hit 'S' ds [] hds hs (by decide)
  simp [groups2, hhitM, hhitS]

theorem groups3_hit (dh : List Char) (r1 : List Char) (hdh : dh ≠ [])
    (hh : ∀ cc ∈ dh, cc.isDigit = true) :
    groups3 (dh ++ 'H' :: r1) = (some (digitsVal dh), groups2 r1) := by
  have hhit := groupNum_hit 'H' dh r1 hdh hh (by decide)
  simp [groups3, hhit]

theorem groups3_miss (r0 : List Char) (hmiss : groupNum 'H' r0 = (none, r0)) :
    groups3 r0 = (none, groups2 r0) := by
  simp [groups3, hmiss]

theorem parseDuration_PT (rest : List Char) :
    parseDuration (String.mk ('P' :: 'T' :: rest)) =
      some (3600 * (groups3 rest).1.getD 0 + 60 * (groups3 rest).2.1.getD 0 +
        (groups3 rest).2.2.getD 0) := by
  simp [parseDuration, ptMatch, startsWithSeg, String.toList]

/-- Claim C3: for every duration string of the form `PT` followed by
optional integer `H`, `M`, `S` components, `parseDuration` returns the
total whole seconds (3600 times hours plus 60 times minutes plus
seconds) as a non-negative integer; in particular `PT1H2M3S` yields
3723, `PT45S` yields 45, `PT10M` yields 600, and `PT0S` or the
component-free `PT` yield 0. -/
theorem parseDuration_totalSeconds :
    (∀ dh dm ds : List Char,
        (∀ cc ∈ dh, cc.isDigit = true) → (∀ cc ∈ dm, cc.isDigit = true) →
        (∀ cc ∈ ds, cc.isDigit = true) →
        parseDuration (String.mk ('P' :: 'T' ::
            (optPart dh 'H' ++ optPart dm 'M' ++ optPart ds 'S'))) =
          some (3600 * digitsVal dh + 60 * digitsVal dm + digitsVal ds)) ∧
    parseDuration "PT1H2M3S" = some 3723 ∧
    parseDuration "PT45S" = some 45 ∧
    parseDuration "PT10M" = some 600 ∧
    parseDuration "PT0S" = some 0 ∧
    parseDuration "PT" = some 0 := by
  refine ⟨?_, by decide, by decide, by decide, by decide, by decide⟩
  intro dh dm ds hh hm hs
  by_cases hdh : dh = []
  · by_cases hdm : dm = []
    · by_cases hds : ds = []
      · subst hdh hdm hds
        decide
      · subst hdh hdm
        have hmiss := groupNum_miss 'H' ds 'S' [] hs (by decide) (by decide)
        simp [optPart, hds, parseDuration_PT, groups3_miss _ hmiss,
          groups2_onlyS ds hds hs, digitsVal]
    · by_cases hds : ds = []
      · subst hdh hds
        have hmiss := groupNum_miss 'H' dm 'M' [] hm (by decide) (by decide)
        simp [optPart, hdm, parseDuration_PT, groups3_miss _ hmiss,
          groups2_onlyM dm hdm hm, digitsVal]
      · subst hdh
        have hmiss := groupNum_miss 'H' dm 'M' (ds ++ ['S']) hm (by decide) (by decide)
        simp [optPart, hdm, hds, parseDuration_PT, groups3_miss _ hmiss,
          groups2_both dm ds hdm hds hm hs, digitsVal]
  · by_cases hdm : dm = []
    · by_cases hds : ds = []
      · subst hdm hds
        simp [optPart, hdh, parseDuration_PT, groups3_hit dh [] hdh hh, groups2_nil,
          digitsVal]
      · subst hdm
        simp [optPart, hdh, hds, parseDuration_PT,
          groups3_hit dh (ds ++ ['S']) hdh hh, groups2_onlyS ds hds hs, digitsVal]
    · by_cases hds : ds = []
      · subst hds
        simp [optPart, hdh, hdm, parseDuration_PT,
          groups3_hit dh (dm ++ ['M']) hdh hh, groups2_onlyM dm hdm hm, digitsVal]
      · simp [optPart, hdh, hdm, hds, parseDuration_PT,
          groups3_hit dh (dm ++ 'M' :: (ds ++ ['S'])) hdh hh,
          groups2_both dm ds hdm hds hm hs, digitsVal]

/-- Witness for the general clause of `parseDuration_totalSeconds`:
the rendered string for hours 1, minutes 2, seconds 3 parses to 3723. -/
theorem parseDuration_totalSeconds_witness :
    parseDuration (String.mk ('P' :: 'T' ::
        (optPart ['1'] 'H' ++ optPart ['2'] 'M' ++ optPart ['3'] 'S'))) =
      some (3600 * digitsVal ['1'] + 60 * digitsVal ['2'] + digitsVal ['3']) :=
  parseDuration_totalSeconds.1 ['1'] ['2'] ['3'] (by decide) (by decide) (by decide)

/-! ## Claim C2: the Short-Form Filter rule cascade -/

/-- The Short-Form Filter rules exactly as the specification lists them,
evaluated in order, short-circuiting on the first rule that fires
(refinement reference for the implementation; rule 2 presupposes the
parsed duration, so an unparseable duration propagates as `none` here
exactly as the implementation's exception does). -/
def shortFormSpec (video : VideoItem) : Option Bool :=
  match video.contentDetails, video.snippet with
  | some cd, some sn =>
      (parseDuration cd.duration).map fun dur =>
        if dur < 180 then true
        else if shortsKeywords.any (fun k => containsSub (shortsText sn) k) then true
        else if idHasShorts video.id then true
        else
          match cd.dimension with
          | some dim => decide (dim.width < dim.height)
          | none => false
  | _, _ => some true

/-- §8's filter examples: a 120-second video. -/
def exDur120 : VideoItem :=
  { id := IdVal.str "a", statistics := none,
    snippet := some { title := "Nice", description := "d", channelId := "ch",
                      tags := none, publishedAt := "" },
    contentDetails := some { duration := "PT2M", dimension := none } }

/-- §8's filter examples: 400 seconds but `#shorts` in the title. -/
def exShortsTag : VideoItem :=
  { id := IdVal.str "a", statistics := none,
    snippet := some { title := "Watch this #Shorts", description := "d", channelId := "ch",
                      tags := none, publishedAt := "" },
    contentDetails := some { duration := "PT6M40S", dimension := none } }

/-- §8's filter examples: 400 seconds, no markers, landscape. -/
def exLandscape : VideoItem :=
  { id := IdVal.str "a", statistics := none,
    snippet := some { title := "Nice", description := "d", channelId := "ch",
                      tags := some ["x"], publishedAt := "" },
    contentDetails := some { duration := "PT6M40S",
                             dimension := some { height := 720, width := 1280 } } }

/-- §8's filter examples: missing `contentDetails`. -/
def exNoDetails : VideoItem :=
  { id := IdVal.str "a", statistics := none,
    snippet := some { title := "Nice", description := "d", channelId := "ch",
                      tags := none, publishedAt := "" },
    contentDetails := none }

/-- Claim C2: `isYoutubeShort` evaluates the specification's rules in
order, short-circuiting on the first true: missing `contentDetails` or
`snippet`; parsed duration under 180 seconds; a shorts marker in the
lowercased title, description and tags; `/shorts/` in a string video
id; a present dimension taller than wide; otherwise false.  The §8
examples evaluate accordingly. -/
theorem isYoutubeShort_rule_cascade :
    (∀ video : VideoItem, isYoutubeShort video = shortFormSpec video) ∧
    isYoutubeShort exDur120 = some true ∧
    isYoutubeShort exShortsTag = some true ∧
    isYoutubeShort exLandscape = some false ∧
    isYoutubeShort exNoDetails = some true := by
  refine ⟨?_, by decide, by decide, by decide, by decide⟩
  intro video
  obtain ⟨vid, sn, cd, st⟩ := video
  cases cd with
  | none => rfl
  | some cdv =>
      cases sn with
      | none => rfl
      | some snv =>
          cases hpd : parseDuration cdv.duration with
          | none => simp [isYoutubeShort, shortFormSpec, hpd]
          | some dur =>
              simp only [isYoutubeShort, shortFormSpec, hpd, Option.map_some']
              by_cases h1 : dur < 180
              · simp [h1]
              · cases h2 : shortsKeywords.any (fun k => containsSub (shortsText snv) k) with
                | true => simp [h1, h2]
                | false =>
                    cases h3 : idHasShorts vid with
                    | true => simp [h1, h2, h3]
                    | false =>
                        cases hdim : cdv.dimension with
                        | none => simp [h1, h2, h3, hdim]
                        | some dim =>
                            by_cases h4 : dim.width < dim.height <;>
                              simp [h1, h2, h3, hdim, h4]

/-- Claim C5: `extractVideoId` returns the `v` query parameter when the
host contains `youtube.com` (an empty or absent parameter meaning
not-found for the callers' truthiness test), the path without its
leading slash when the host contains `youtu.be`, and `none` for any
other host or any string that fails to parse as a URL, never
propagating an exception; the three §8 examples evaluate accordingly. -/
theorem extractVideoId_rules :
    (∀ url u, parseURL url = some u → containsSub u.hostname ("youtube.com") = true →
        extractVideoId url = searchParamsGet u.query ("v")) ∧
    (∀ url u, parseURL url = some u → containsSub u.hostname ("youtube.com") = true →
        (searchParamsGet u.query ("v")).getD "" = "" →
        presentId (extractVideoId url) = none) ∧
    (∀ url u, parseURL url = some u → containsSub u.hostname ("youtube.com") = false →
        containsSub u.hostname ("youtu.be") = true →
        extractVideoId url = some (u.pathname.drop 1)) ∧
    (∀ url u, parseURL url = some u → containsSub u.hostname ("youtube.com") = false →
        containsSub u.hostname ("youtu.be") = false →
        extractVideoId url = none) ∧
    (∀ url, parseURL url = none → extractVideoId url = none) ∧
    extractVideoId ("https://www.youtube.com/watch?v=ABC123") = some ("ABC123") ∧
    extractVideoId ("https://youtu.be/XYZ789") = some ("XYZ789") ∧
    extractVideoId ("https://example.com/video") = none := by
  refine ⟨?_, ?_, ?_, ?_, ?_, by decide, by decide, by decide⟩
  · intro url u hp h1
    simp [extractVideoId, hp, h1]
  · intro url u hp h1 hv
    have he : extractVideoId url = searchParamsGet u.query ("v") := by
      simp [extractVideoId, hp, h1]
    rw [he]
    cases hq : searchParamsGet u.query ("v") with
    | none => rfl
    | some s =>
        rw [hq] at hv
        simp only [Option.getD_some] at hv
        subst hv
        decide
  · intro url u hp h1 h2
    simp [extractVideoId, hp, h1, h2]
  · intro url u hp h1 h2
    simp [extractVideoId, hp, h1, h2]
  · intro url hp
    simp [extractVideoId, hp]

/-- Witness for `extractVideoId_rules`: its first clause applied to the
concrete watch URL. -/
theorem extractVideoId_rules_witness :
    extractVideoId ("https://www.youtube.com/watch?v=ABC123") =
      searchParamsGet (("v=ABC123").toList) ("v") := by
  have hp : parseURL ("https://www.youtube.com/watch?v=ABC123") =
      some { hostname := ("www.youtube.com"), pathname := ("/watch"),
             query := ("v=ABC123").toList } := by decide
  exact extractVideoId_rules.1 ("https://www.youtube.com/watch?v=ABC123") _ hp (by decide)

/-! ## Lemmas about the orchestrator -/

theorem filterShorts_ok_sublist :
    ∀ {l k : List VideoItem}, filterShorts l = Except.ok k → k.Sublist l := by
  intro l
  induction l with
  | nil =>
      intro k h
      cases h
      exact List.Sublist.refl []
  | cons v vs ih =>
      intro k h
      unfold filterShorts at h
      cases hb : isYoutubeShort v with
      | none => rw [hb] at h; cases h
      | some b =>
          rw [hb] at h
          cases hr : filterShorts vs with
          | error e => rw [hr] at h; cases h
          | ok rest =>
              rw [hr] at h
              cases b with
              | true =>
                  cases h
                  exact (ih hr).cons v
              | false =>
                  cases h
                  exact (ih hr).cons₂ v

theorem filterShorts_ok_notShort :
    ∀ {l k : List VideoItem}, filterShorts l = Except.ok k →
      ∀ v ∈ k, isYoutubeShort v = some false := by
  intro l
  induction l with
  | nil =>
      intro k h v hv
      cases h
      cases hv
  | cons w vs ih =>
      intro k h v hv
      unfold filterShorts at h
      cases hb : isYoutubeShort w with
      | none => rw [hb] at h; cases h
      | some b =>
          rw [hb] at h
          cases hr : filterShorts vs with
          | error e => rw [hr] at h; cases h
          | ok rest =>
              rw [hr] at h
              cases b with
              | true =>
                  cases h
                  exact ih hr v hv
              | false =>
                  cases h
                  rcases List.mem_cons.mp hv with h1 | h2
                  · rw [h1]; exact hb
                  · exact ih hr v h2

theorem collectResults_error_shape (api : Api) (tok : Option String) :
    ∀ urls e, collectResults api tok urls = Except.error e →
      e ≠ PErr.noRecommendations ∧ e ≠ PErr.filterCrash := by
  intro urls
  induction urls with
  | nil =>
      intro e h
      cases h
  | cons url rest ih =>
      intro e h
      unfold collectResults at h
      cases hid : presentId (extractVideoId url) with
      | none =>
          rw [hid] at h
          exact ih e h
      | some videoId =>
          simp only [hid] at h
          cases hdet : api.details videoId with
          | none =>
              simp only [hdet] at h
              exact ih e h
          | some d =>
              simp only [hdet, getRelatedVideos] at h
              cases hs : api.search d tok with
              | err c =>
                  simp only [hs] at h
                  cases h
                  exact ⟨fun hc => PErr.noConfusion hc, fun hc => PErr.noConfusion hc⟩
              | ok page =>
                  simp only [hs] at h
                  by_cases hemp : page.items.isEmpty = true
                  · rw [if_pos hemp] at h
                    cases h
                    exact ⟨fun hc => PErr.noConfusion hc, fun hc => PErr.noConfusion hc⟩
                  · rw [if_neg hemp] at h
                    cases hr : collectResults api tok rest with
                    | error e2 =>
                        simp only [hr] at h
                        cases h
                        exact ih e hr
                    | ok acc => simp only [hr] at h; cases h

theorem collectResults_ok_cons_has_id (api : Api) (tok : Option String) :
    ∀ urls v vs, collectResults api tok urls = Except.ok (v :: vs) →
      ∃ url ∈ urls, ∃ id, presentId (extractVideoId url) = some id := by
  intro urls
  induction urls with
  | nil =>
      intro v vs h
      cases h
  | cons url rest ih =>
      intro v vs h
      unfold collectResults at h
      cases hid : presentId (extractVideoId url) with
      | none =>
          rw [hid] at h
          obtain ⟨u, hu, w⟩ := ih v vs h
          exact ⟨u, List.mem_cons_of_mem url hu, w⟩
      | some videoId =>
          exact ⟨url, List.mem_cons_self url rest, videoId, hid⟩

theorem filterShorts_error_shape :
    ∀ {l : List VideoItem} {e}, filterShorts l = Except.error e → e = PErr.filterCrash := by
  intro l
  induction l with
  | nil =>
      intro e h
      cases h
  | cons v vs ih =>
      intro e h
      unfold filterShorts at h
      cases hb : isYoutubeShort v with
      | none =>
          rw [hb] at h
          cases h
          rfl
      | some b =>
          rw [hb] at h
          cases hr : filterShorts vs with
          | error e2 =>
              rw [hr] at h
              cases h
              exact ih hr
          | ok rest => rw [hr] at h; cases h

/-- Decidable equality for `Except` outcomes, so concrete pipeline runs
can be checked by `decide`. -/
instance instDecEqExcept {ε α : Type} [DecidableEq ε] [DecidableEq α] :
    DecidableEq (Except ε α)
  | Except.error e, Except.error e' =>
      if h : e = e' then isTrue (by rw [h])
      else isFalse (fun hc => h (Except.error.inj hc))
  | Except.error _, Except.ok _ => isFalse (fun hc => Except.noConfusion hc)
  | Except.ok _, Except.error _ => isFalse (fun hc => Except.noConfusion hc)
  | Except.ok a, Except.ok a' =>
      if h : a = a' then isTrue (by rw [h])
      else isFalse (fun hc => h (Except.ok.inj hc))

theorem processVideoUrls_ok_inv (urls : List String) (api : Api) (tok : Option String)
    (page : ResultPage) (hok : processVideoUrls urls api tok = Except.ok page) :
    ∃ pool kept, collectResults api tok urls = Except.ok pool ∧ pool.isEmpty = false ∧
      filterShorts pool = Except.ok kept ∧
      page = { items := kept.take MAX_RESULTS, nextPageToken := tok } := by
  unfold processVideoUrls at hok
  cases hcol : collectResults api tok urls with
  | error e =>
      simp only [hcol] at hok
      exact Except.noConfusion hok
  | ok results =>
      simp only [hcol] at hok
      by_cases hres : results.isEmpty = true
      · rw [if_pos hres] at hok; cases hok
      · rw [if_neg hres] at hok
        cases hfil : filterShorts results with
        | error e =>
            simp only [hfil] at hok
            exact Except.noConfusion hok
        | ok kept =>
            simp only [hfil] at hok
            cases hok
            exact ⟨results, kept, rfl, Bool.eq_false_iff.mpr hres, hfil, rfl⟩

/-- Claim C1: whenever `processVideoUrls` returns a page, every item on
it is not classified short-form by the filter, the page never exceeds
`MAX_RESULTS` (15) items, and the items appear in the order the
external API returned them across the pooled sources (a sublist of the
pool — no scoring or shuffling before truncation). -/
theorem processVideoUrls_page_invariants (urls : List String) (api : Api)
    (tok : Option String) (page : ResultPage)
    (hok : processVideoUrls urls api tok = Except.ok page) :
    (∀ v ∈ page.items, isYoutubeShort v = some false) ∧
    page.items.length ≤ MAX_RESULTS ∧
    ∃ pool, collectResults api tok urls = Except.ok pool ∧ page.items.Sublist pool := by
  obtain ⟨pool, kept, hcol, hne, hfil, rfl⟩ := processVideoUrls_ok_inv urls api tok page hok
  refine ⟨?_, ?_, pool, hcol, ?_⟩
  · intro v hv
    exact filterShorts_ok_notShort hfil v (List.mem_of_mem_take hv)
  · exact List.length_take_le _ _
  · exact (List.take_sublist _ _).trans (filterShorts_ok_sublist hfil)

/-- Concrete one-source API for the witnesses: the details call knows
`ABC123` and the related-video search returns one long landscape video
and one 120-second video, with an upstream continuation token. -/
def apiW : Api :=
  { details := fun id => if id = ("ABC123" : String) then some exLandscape else none,
    search := fun _ _ =>
      SearchRes.ok { items := [exLandscape, exDur120], nextPageToken := some ("t2") } }

/-- The witness URL list. -/
def urlsW : List String := [("https://www.youtube.com/watch?v=ABC123")]

/-- Witness for `processVideoUrls_page_invariants` at a concrete API. -/
theorem processVideoUrls_page_invariants_witness :
    (∀ v ∈ ({ items := [exLandscape], nextPageToken := none } : ResultPage).items,
        isYoutubeShort v = some false) ∧
    ({ items := [exLandscape], nextPageToken := none } : ResultPage).items.length ≤ MAX_RESULTS ∧
    ∃ pool, collectResults apiW none urlsW = Except.ok pool ∧
      ({ items := [exLandscape], nextPageToken := none } : ResultPage).items.Sublist pool :=
  processVideoUrls_page_invariants urlsW apiW none
    { items := [exLandscape], nextPageToken := none } (by decide)

/-- Claim C10: the `nextPageToken` of the page returned by
`processVideoUrls` is always the caller's own `pageToken` argument,
whatever continuation tokens the external search calls returned, so
repeating the call with the same arguments can never advance
pagination. -/
theorem processVideoUrls_echoes_pageToken (urls : List String) (api : Api)
    (tok : Option String) (page : ResultPage)
    (hok : processVideoUrls urls api tok = Except.ok page) :
    page.nextPageToken = tok := by
  obtain ⟨pool, kept, hcol, hne, hfil, rfl⟩ := processVideoUrls_ok_inv urls api tok page hok
  rfl

/-- Witness for `processVideoUrls_echoes_pageToken`: the upstream search
returns continuation token `t2`, yet the page echoes the caller's
token. -/
theorem processVideoUrls_echoes_pageToken_witness :
    ({ items := [exLandscape], nextPageToken := some ("p0") } : ResultPage).nextPageToken =
      some ("p0") :=
  processVideoUrls_echoes_pageToken urlsW apiW (some ("p0"))
    { items := [exLandscape], nextPageToken := some ("p0") } (by decide)

/-- Claim C8: inside `processVideoUrls`, a failed or not-found details
fetch for a source is swallowed — that source is skipped and the
remaining sources are processed as if it were absent — while a failing
related-videos fetch propagates and aborts the whole request (as does
its empty-result throw), whatever sources remain. -/
theorem perSource_failure_policy (url : String) (rest : List String) (api : Api)
    (tok : Option String) :
    (∀ id, presentId (extractVideoId url) = some id → api.details id = none →
        processVideoUrls (url :: rest) api tok = processVideoUrls rest api tok) ∧
    (∀ id d c, presentId (extractVideoId url) = some id → api.details id = some d →
        api.search d tok = SearchRes.err c →
        processVideoUrls (url :: rest) api tok = Except.error (PErr.upstream c)) ∧
    (∀ id d p, presentId (extractVideoId url) = some id → api.details id = some d →
        api.search d tok = SearchRes.ok p → p.items = [] →
        processVideoUrls (url :: rest) api tok = Except.error PErr.noRelated) := by
  refine ⟨?_, ?_, ?_⟩
  · intro id hid hdet
    have hc : collectResults api tok (url :: rest) = collectResults api tok rest := by
      simp only [collectResults, hid, hdet]
    unfold processVideoUrls
    rw [hc]
  · intro id d c hid hdet hs
    have hc : collectResults api tok (url :: rest) = Except.error (PErr.upstream c) := by
      simp only [collectResults, hid, hdet, getRelatedVideos, hs]
    unfold processVideoUrls
    rw [hc]
  · intro id d p hid hdet hs hpe
    have hc : collectResults api tok (url :: rest) = Except.error PErr.noRelated := by
      simp only [collectResults, hid, hdet, getRelatedVideos, hs, hpe, List.isEmpty_nil,
        if_true]
    unfold processVideoUrls
    rw [hc]

/-- An API whose details fetch always fails. -/
def apiDetNone : Api :=
  { details := fun _ => none, search := fun _ _ => SearchRes.err (some 403) }

/-- Witness for `perSource_failure_policy`: with an always-failing
details fetch, one source is skipped and processing continues with the
(empty) remainder. -/
theorem perSource_failure_policy_witness :
    processVideoUrls [("https://youtu.be/X")] apiDetNone none =
      processVideoUrls [] apiDetNone none :=
  (perSource_failure_policy ("https://youtu.be/X") [] apiDetNone none).1 ("X")
    (by decide) rfl

/-- API for the C7 counterexample: the only candidate is a 120-second
video that the Short-Form Filter removes. -/
def apiC7 : Api :=
  { details := fun _ => some exLandscape,
    search := fun _ _ => SearchRes.ok { items := [exDur120], nextPageToken := none } }

/-- The C7 counterexample URL list. -/
def urlsC7 : List String := [("https://youtu.be/X")]

/-- Counterexample to claim C7: here all sources are processed and zero
recommendations survive filtering, yet `processVideoUrls` does not fail
with the `noRecommendations` error — it returns an empty page (the
emptiness check runs before filtering, on the raw pool). -/
theorem processVideoUrls_emptyAfterFilter_noError :
    processVideoUrls urlsC7 apiC7 none =
      Except.ok { items := [], nextPageToken := none } ∧
    processVideoUrls urlsC7 apiC7 none ≠ Except.error PErr.noRecommendations :=
  ⟨by decide, by decide⟩

/-- Claim C7 as amended: `processVideoUrls` throws the distinct
`noRecommendations` error exactly when the pre-filter candidate pool is
empty; when candidates exist but filtering removes them all, it instead
returns an empty page, which the controller turns into the distinct
404 `No recommendations found` response (for a request that passed
validation, i.e. at most 5 URLs). -/
theorem noRecommendations_iff_poolEmpty (urls : List String) (api : Api)
    (tok : Option String) :
    (processVideoUrls urls api tok = Except.error PErr.noRecommendations ↔
        collectResults api tok urls = Except.ok []) ∧
    (∀ page, urls.length ≤ 5 → processVideoUrls urls api tok = Except.ok page →
        page.items.isEmpty = true → handleUrlInput urls api tok = UResp.emptyRecs) := by
  constructor
  · constructor
    · intro h
      unfold processVideoUrls at h
      cases hcol : collectResults api tok urls with
      | error e =>
          simp only [hcol] at h
          cases h
          exact absurd rfl (collectResults_error_shape api tok urls _ hcol).1
      | ok results =>
          simp only [hcol] at h
          by_cases hres : results.isEmpty = true
          · rw [List.isEmpty_iff.mp hres]
          · rw [if_neg hres] at h
            cases hfil : filterShorts results with
            | error e =>
                simp only [hfil] at h
                cases h
                exact absurd (filterShorts_error_shape hfil) (by intro hc; cases hc)
            | ok kept =>
                simp only [hfil] at h
                exact Except.noConfusion h
    · intro h
      unfold processVideoUrls
      simp [h]
  · intro page hlen hok hempty
    obtain ⟨pool, kept, hcol, hne, hfil, hpage⟩ :=
      processVideoUrls_ok_inv urls api tok page hok
    cases pool with
    | nil => simp at hne
    | cons v vs =>
        obtain ⟨u, hu, id, hidu⟩ := collectResults_ok_cons_has_id api tok urls v vs hcol
        have hurls : urls.isEmpty = false := by
          cases urls with
          | nil => exact absurd hu (List.not_mem_nil u)
          | cons a l => rfl
        have hfm : ((urls.filterMap fun x => presentId (extractVideoId x)).isEmpty) = false := by
          have hmem : id ∈ urls.filterMap fun x => presentId (extractVideoId x) :=
            List.mem_filterMap.mpr ⟨u, hu, hidu⟩
          rcases hcase : urls.filterMap fun x => presentId (extractVideoId x) with _ | ⟨a, l⟩
          · rw [hcase] at hmem
            exact absurd hmem (List.not_mem_nil id)
          · rfl
        have h5 : ¬(5 < urls.length) := Nat.not_lt.mpr hlen
        simp [handleUrlInput, hurls, h5, hfm, hok, hempty]

/-- Witness for `noRecommendations_iff_poolEmpty`: at the concrete
all-shorts API, the controller reports the distinct 404 empty-result
response. -/
theorem noRecommendations_iff_poolEmpty_witness :
    handleUrlInput urlsC7 apiC7 none = UResp.emptyRecs :=
  (noRecommendations_iff_poolEmpty urlsC7 apiC7 none).2
    { items := [], nextPageToken := none } (by decide) (by decide) (by decide)

/-! ## Lemmas for the shuffle -/

theorem set_get_self : ∀ (l : List α) (i : Nat) (h : i < l.length),
    l.set i (l.get ⟨i, h⟩) = l
  | _ :: _, 0, _ => rfl
  | a :: l, n + 1, h => by
      simp only [List.set_cons_succ, List.get_cons_succ]
      rw [set_get_self l n (Nat.lt_of_succ_lt_succ h)]

theorem get_cons_set_perm : ∀ (xs : List α) (k : Nat) (hk : k < xs.length) (x : α),
    List.Perm (xs.get ⟨k, hk⟩ :: xs.set k x) (x :: xs)
  | y :: ys, 0, _, x => List.Perm.swap x y ys
  | y :: ys, k + 1, hk, x => by
      have ih := get_cons_set_perm ys k (Nat.lt_of_succ_lt_succ hk) x
      simp only [List.get_cons_succ, List.set_cons_succ]
      have s1 : List.Perm (ys.get ⟨k, Nat.lt_of_succ_lt_succ hk⟩ :: y :: ys.set k x)
          (y :: ys.get ⟨k, Nat.lt_of_succ_lt_succ hk⟩ :: ys.set k x) :=
        List.Perm.swap y (ys.get ⟨k, Nat.lt_of_succ_lt_succ hk⟩) (ys.set k x)
      have s2 : List.Perm (y :: ys.get ⟨k, Nat.lt_of_succ_lt_succ hk⟩ :: ys.set k x)
          (y :: (x :: ys)) := ih.cons y
      have s3 : List.Perm (y :: x :: ys) (x :: y :: ys) := List.Perm.swap x y ys
      exact (s1.trans s2).trans s3

theorem set_set_perm_lt : ∀ (l : List α) (i j : Nat) (hij : i < j) (hj : j < l.length),
    List.Perm ((l.set i (l.get ⟨j, hj⟩)).set j (l.get ⟨i, Nat.lt_trans hij hj⟩)) l
  | [], _, _, _, hj => absurd hj (Nat.not_lt_zero _)
  | _ :: _, 0, 0, hij, _ => absurd hij (Nat.lt_irrefl 0)
  | _ :: _, _ + 1, 0, hij, _ => absurd hij (Nat.not_lt_zero _)
  | x :: xs, 0, k + 1, _, hj => by
      simp only [List.get_cons_succ, List.get_cons_zero, List.set_cons_zero,
        List.set_cons_succ]
      exact get_cons_set_perm xs k (Nat.lt_of_succ_lt_succ hj) x
  | x :: xs, i + 1, j + 1, hij, hj => by
      simp only [List.get_cons_succ, List.set_cons_succ]
      exact (set_set_perm_lt xs i j (Nat.lt_of_succ_lt_succ hij)
        (Nat.lt_of_succ_lt_succ hj)).cons x

theorem swapL_perm (l : List α) (i j : Nat) : List.Perm (swapL l i j) l := by
  unfold swapL
  cases hi : l[i]? with
  | none =>
      simp only [hi]
      cases l[j]? <;> exact List.Perm.refl l
  | some a =>
      cases hj : l[j]? with
      | none =>
          simp only [hi, hj]
          exact List.Perm.refl l
      | some b =>
          simp only [hi, hj]
          obtain ⟨hi', rfl⟩ := List.getElem?_eq_some_iff.mp hi
          obtain ⟨hj', rfl⟩ := List.getElem?_eq_some_iff.mp hj
          rcases Nat.lt_trichotomy i j with hlt | heq | hgt
          · have hperm := set_set_perm_lt l i j hlt hj'
            simpa [List.get_eq_getElem] using hperm
          · subst heq
            rw [List.set_set]
            have hset := set_get_self l i hi'
            rw [List.get_eq_getElem] at hset
            rw [hset]
          · have hperm := set_set_perm_lt l j i hgt hi'
            rw [List.set_comm _ _ _ (Nat.ne_of_lt hgt).symm]
            simpa [List.get_eq_getElem] using hperm

theorem fyGo_perm (rand : Nat → Nat) : ∀ (n : Nat) (l : List α),
    List.Perm (fyGo rand n l) l
  | 0, l => List.Perm.refl l
  | i + 1, l =>
      (fyGo_perm rand i (swapL l (i + 1) (rand (i + 1) % (i + 2)))).trans
        (swapL_perm l (i + 1) (rand (i + 1) % (i + 2)))

theorem fisherYates_perm (rand : Nat → Nat) (chunk : List α) :
    List.Perm (fisherYates rand chunk) chunk :=
  fyGo_perm rand (chunk.length - 1) chunk

theorem chunksOf_flatten_fuel : ∀ (n : Nat) (cs : Nat) (l : List α), l.length ≤ n →
    cs ≠ 0 → (chunksOf cs l).flatten = l
  | _, cs, [], _, _ => by
      rw [chunksOf]
      simp
  | 0, cs, a :: l, hlen, _ => by simp at hlen
  | n + 1, cs, a :: l, hlen, hcs => by
      rw [chunksOf]
      have hcond : ¬(((a :: l).isEmpty || (cs == 0)) = true) := by
        simp [hcs]
      rw [dif_neg hcond]
      have hdrop : ((a :: l).drop cs).length ≤ n := by
        simp only [List.length_drop, List.length_cons]
        simp only [List.length_cons] at hlen
        omega
      rw [List.flatten_cons, chunksOf_flatten_fuel n cs ((a :: l).drop cs) hdrop hcs,
        List.take_append_drop]

theorem chunksOf_flatten (cs : Nat) (l : List α) (hcs : cs ≠ 0) :
    (chunksOf cs l).flatten = l :=
  chunksOf_flatten_fuel l.length cs l (Nat.le_refl _) hcs

theorem shuffledChunks_flatten_perm (rand : Nat → Nat → Nat) :
    ∀ (k : Nat) (chunks : List (List α)),
      List.Perm (shuffledChunks rand k chunks).flatten chunks.flatten
  | _, [] => List.Perm.refl []
  | k, chunk :: rest => by
      simp only [shuffledChunks, List.flatten_cons]
      exact (fisherYates_perm (rand k) chunk).append
        (shuffledChunks_flatten_perm rand (k + 1) rest)

theorem maxLen_cons (chunk : List α) (rest : List (List α)) :
    maxLen (chunk :: rest) = max chunk.length (maxLen rest) := rfl

theorem maxLen_zero : ∀ (chunks : List (List α)), maxLen chunks = 0 →
    ∀ ck ∈ chunks, ck = []
  | [], _, _, h => absurd h (List.not_mem_nil _)
  | chunk :: rest, hm, ck, h => by
      rw [maxLen_cons] at hm
      rcases List.mem_cons.mp h with h1 | h2
      · subst h1
        have : ck.length = 0 := by omega
        exact List.eq_nil_of_length_eq_zero this
      · exact maxLen_zero rest (by omega) ck h2

theorem maxLen_map_tail (chunks : List (List α)) :
    maxLen (chunks.map List.tail) = maxLen chunks - 1 := by
  induction chunks with
  | nil => rfl
  | cons chunk rest ih =>
      simp only [List.map_cons, maxLen_cons, ih, List.length_tail]
      omega

theorem getElem?_succ_tail (ck : List α) (i : Nat) : ck[i + 1]? = (List.tail ck)[i]? := by
  cases ck with
  | nil => rfl
  | cons a l => simp

theorem heads_tails_perm : ∀ (chunks : List (List α)),
    List.Perm (chunks.filterMap List.head? ++ (chunks.map List.tail).flatten)
      chunks.flatten
  | [] => List.Perm.refl []
  | chunk :: rest => by
      cases chunk with
      | nil =>
          simp only [List.filterMap_cons, List.head?_nil, List.map_cons, List.tail_nil,
            List.flatten_cons, List.nil_append]
          exact heads_tails_perm rest
      | cons a t =>
          simp only [List.filterMap_cons, List.head?_cons, List.map_cons, List.tail_cons,
            List.flatten_cons, List.cons_append]
          have ih := heads_tails_perm rest
          have hmid : List.Perm (rest.filterMap List.head? ++ (t ++ (rest.map List.tail).flatten))
              (t ++ (rest.filterMap List.head? ++ (rest.map List.tail).flatten)) :=
            List.perm_append_comm_assoc _ _ _
          have happ : List.Perm (t ++ (rest.filterMap List.head? ++ (rest.map List.tail).flatten))
              (t ++ rest.flatten) := ih.append_left t
          exact ((hmid.trans happ).cons a)

theorem interleave_perm (chunks : List (List α)) :
    List.Perm (interleave chunks) chunks.flatten := by
  generalize hn : maxLen chunks = n
  induction n generalizing chunks with
  | zero =>
      unfold interleave
      rw [hn]
      simp only [List.range_zero, List.map_nil, List.flatten_nil]
      have hall := maxLen_zero chunks hn
      have : chunks.flatten = [] := by
        rw [List.flatten_eq_nil_iff]
        exact hall
      rw [this]
  | succ n ih =>
      unfold interleave
      rw [hn, List.range_succ_eq_map]
      simp only [List.map_cons, List.map_map, List.flatten_cons]
      have hrow : ∀ i, (chunks.filterMap fun ck => ck[i + 1]?) =
          ((chunks.map List.tail).filterMap fun ck => ck[i]?) := by
        intro i
        rw [List.filterMap_map]
        apply List.filterMap_congr
        intro ck _
        exact getElem?_succ_tail ck i
      have hrows : (List.map ((fun i => chunks.filterMap fun ck => ck[i]?) ∘ Nat.succ)
            (List.range n)).flatten =
          interleave (chunks.map List.tail) := by
        unfold interleave
        rw [maxLen_map_tail, hn]
        simp only [Nat.add_sub_cancel]
        congr 1
        apply List.map_congr_left
        intro i _
        exact hrow i
      rw [hrows]
      have hhead : (chunks.filterMap fun ck => ck[0]?) = chunks.filterMap List.head? := by
        apply List.filterMap_congr
        intro ck _
        rw [List.head?_eq_getElem?]
      rw [hhead]
      have hperm := (ih (chunks.map List.tail) (by rw [maxLen_map_tail, hn]; rfl))
      exact ((hperm.append_left _).trans (heads_tails_perm chunks))

/-- Claim C4: for every random source and input list,
`shuffleWithRelevance` returns a permutation of its input (same
multiset, nothing added or dropped), so the length is preserved; for
input length 0 or 1 the output equals the input exactly. -/
theorem shuffleWithRelevance_permutation (rand : Nat → Nat → Nat) (videos : List α) :
    List.Perm (shuffleWithRelevance rand videos) videos ∧
    (shuffleWithRelevance rand videos).length = videos.length ∧
    (videos = [] → shuffleWithRelevance rand videos = []) ∧
    (∀ x, videos = [x] → shuffleWithRelevance rand videos = [x]) := by
  have hnil : shuffleWithRelevance rand ([] : List α) = [] := by
    show interleave (shuffledChunks rand 0
        (chunksOf ((([] : List α).length + 2) / 3) [])) = []
    rw [chunksOf]
    simp [shuffledChunks, interleave, maxLen]
  have hone : ∀ x : α, shuffleWithRelevance rand [x] = [x] := by
    intro x
    have hcs1 : (([x] : List α).length + 2) / 3 = 1 := by simp
    have hchunks : chunksOf 1 [x] = [[x]] := by
      rw [chunksOf]
      simp
      rw [chunksOf]
      simp
    show interleave (shuffledChunks rand 0
        (chunksOf ((([x] : List α).length + 2) / 3) [x])) = [x]
    rw [hcs1, hchunks]
    simp [shuffledChunks, fisherYates, fyGo, interleave, maxLen, List.range_succ]
  have hperm : List.Perm (shuffleWithRelevance rand videos) videos := by
    cases videos with
    | nil => rw [hnil]
    | cons a l =>
        have hcs : ((a :: l).length + 2) / 3 ≠ 0 := by
          simp only [List.length_cons]
          omega
        have base := (interleave_perm (shuffledChunks rand 0
            (chunksOf (((a :: l).length + 2) / 3) (a :: l)))).trans
          (shuffledChunks_flatten_perm rand 0 (chunksOf (((a :: l).length + 2) / 3) (a :: l)))
        rw [chunksOf_flatten _ _ hcs] at base
        exact base
  exact ⟨hperm, hperm.length_eq, fun hv => by rw [hv, hnil], fun x hv => by rw [hv, hone x]⟩

/-- Witness for `shuffleWithRelevance_permutation`: a concrete
four-element run is a permutation, and the singleton hypothesis is
discharged at `[7]`. -/
theorem shuffleWithRelevance_permutation_witness :
    List.Perm (shuffleWithRelevance (fun _ _ => 0) [10, 20, 30, 40]) [10, 20, 30, 40] ∧
    shuffleWithRelevance (fun _ _ => 0) [(7 : Nat)] = [7] :=
  ⟨(shuffleWithRelevance_permutation (fun _ _ => 0) [10, 20, 30, 40]).1,
   (shuffleWithRelevance_permutation (fun _ _ => 0) [(7 : Nat)]).2.2.2 7 rfl⟩

/-- Claim C6 assessment: for positive view counts the popularity term
is `min(0.4, log10(viewCount)/10)` as claimed, but at view count 0
(e.g. the API string `"0"`) the term is `-Infinity` — `Math.min(0.4,
Math.log10(0)/10)` — not the claimed 0, and adding it drives any finite
score to `-Infinity`; a negative view count yields `NaN`. -/
theorem popularityScore_at_zero (log10 : Int → ℚ) :
    popularityScore log10 (jsParseIntOr0 ("0")) = JVal.negInf ∧
    popularityScore log10 0 ≠ JVal.num 0 ∧
    (∀ s : ℚ, jsAdd (JVal.num s) (popularityScore log10 0) = JVal.negInf) ∧
    (∀ v : Int, 0 < v →
        popularityScore log10 v = JVal.num (min (2 / 5) (log10 v / 10))) ∧
    popularityScore log10 (-1) = JVal.nan := by
  have h0 : jsParseIntOr0 ("0") = 0 := by decide
  have hz : popularityScore log10 0 = JVal.negInf := by
    simp [popularityScore, jsLog10, jsDiv10, jsMin]
  refine ⟨by rw [h0, hz], ?_, ?_, ?_, ?_⟩
  · rw [hz]
    intro hc
    cases hc
  · intro s
    rw [hz]
    rfl
  · intro v hv
    simp [popularityScore, jsLog10, jsDiv10, jsMin, hv]
  · simp [popularityScore, jsLog10, jsDiv10, jsMin]

/-- Witness for `popularityScore_at_zero` at a concrete logarithm
table and view counts. -/
theorem popularityScore_at_zero_witness :
    jsAdd (JVal.num 1) (popularityScore (fun _ => (1 : ℚ)) 0) = JVal.negInf ∧
    popularityScore (fun _ => (1 : ℚ)) 5 =
      JVal.num (min (2 / 5) ((fun _ => (1 : ℚ)) 5 / 10)) :=
  ⟨(popularityScore_at_zero (fun _ => (1 : ℚ))).2.2.1 1,
   (popularityScore_at_zero (fun _ => (1 : ℚ))).2.2.2.1 5 (by decide)⟩

/-! ## Lemmas for the takeout pipeline -/

theorem mem_dedupFirst : ∀ (l : List String) (a : String), a ∈ dedupFirst l → a ∈ l := by
  intro l
  induction l using dedupFirst.induct with
  | case1 =>
      intro a h
      rw [dedupFirst] at h
      cases h
  | case2 x xs ih =>
      intro a h
      rw [dedupFirst] at h
      rcases List.mem_cons.mp h with h1 | h2
      · rw [h1]
        exact List.mem_cons_self x _
      · exact List.mem_cons_of_mem x (List.mem_of_mem_filter (ih a h2))

theorem dedupFirst_nodup : ∀ (l : List String), (dedupFirst l).Nodup := by
  intro l
  induction l using dedupFirst.induct with
  | case1 =>
      rw [dedupFirst]
      exact List.nodup_nil
  | case2 x xs ih =>
      rw [dedupFirst]
      refine List.Nodup.cons ?_ ih
      intro hmem
      have hx := mem_dedupFirst _ x hmem
      have := List.of_mem_filter hx
      simp at this

theorem dedupFirst_length_le : ∀ (l : List String), (dedupFirst l).length ≤ l.length := by
  intro l
  induction l using dedupFirst.induct with
  | case1 =>
      rw [dedupFirst]
  | case2 x xs ih =>
      rw [dedupFirst]
      simp only [List.length_cons, Nat.succ_le_succ_iff]
      exact Nat.le_trans ih (List.length_filter_le _ _)

/-- Claim C9: `processTakeoutFile` keeps only `youtube.com/watch`
entries, sorts them descending by timestamp, takes the 10 most recent,
extracts their ids de-duplicated in first-seen order, turns each id
into a synthetic watch URL, and delegates the resulting list — at most
10 URLs, with no 5-URL cap — to `processVideoUrls`. -/
theorem processTakeoutFile_pipeline (tv : String → Int) (watchHistory : List HistoryEntry)
    (api : Api) :
    processTakeoutFile tv watchHistory api =
      processVideoUrls (takeoutUrls tv watchHistory) api none ∧
    takeoutUrls tv watchHistory =
      (takeoutIds tv watchHistory).map (fun id => "https://youtube.com/watch?v=" ++ id) ∧
    (takeoutIds tv watchHistory).Nodup ∧
    (takeoutUrls tv watchHistory).length ≤ 10 ∧
    (∀ e ∈ recentWatchEntries tv watchHistory,
        containsSub e.titleUrl ("youtube.com/watch") = true) ∧
    (∀ id ∈ takeoutIds tv watchHistory, ∃ e ∈ recentWatchEntries tv watchHistory,
        presentId (extractVideoId e.titleUrl) = some id) ∧
    (∀ e1 ∈ recentWatchEntries tv watchHistory,
      ∀ e2 ∈ ((watchHistory.filter fun e =>
            containsSub e.titleUrl ("youtube.com/watch")).mergeSort
          (fun a b => decide (tv b.time ≤ tv a.time))).drop 10,
        tv e2.time ≤ tv e1.time) := by
  refine ⟨rfl, rfl, dedupFirst_nodup _, ?_, ?_, ?_, ?_⟩
  · calc (takeoutUrls tv watchHistory).length
        = (takeoutIds tv watchHistory).length := List.length_map _ _
      _ ≤ ((recentWatchEntries tv watchHistory).filterMap fun e =>
            presentId (extractVideoId e.titleUrl)).length := dedupFirst_length_le _
      _ ≤ (recentWatchEntries tv watchHistory).length := List.length_filterMap_le _ _
      _ ≤ 10 := List.length_take_le _ _
  · intro e he
    have h1 := List.mem_of_mem_take he
    have h2 := (List.mergeSort_perm _ _).mem_iff.mp h1
    exact (List.mem_filter.mp h2).2
  · intro id hid
    have h1 := mem_dedupFirst _ id hid
    obtain ⟨e, he, heq⟩ := List.mem_filterMap.mp h1
    exact ⟨e, he, heq⟩
  · have hsorted := @List.sorted_mergeSort HistoryEntry
      (fun a b => decide (tv b.time ≤ tv a.time))
      (fun a b c hab hbc => by
        simp only [decide_eq_true_eq] at hab hbc ⊢
        exact le_trans hbc hab)
      (fun a b => by
        simp only [Bool.or_eq_true, decide_eq_true_eq]
        exact le_total (tv b.time) (tv a.time))
      (watchHistory.filter fun e => containsSub e.titleUrl ("youtube.com/watch"))
    have hsorted' : List.Pairwise (fun a b : HistoryEntry => tv b.time ≤ tv a.time)
        ((watchHistory.filter fun e => containsSub e.titleUrl ("youtube.com/watch")).mergeSort
          (fun a b => decide (tv b.time ≤ tv a.time))) :=
      hsorted.imp (fun h => by simpa using h)
    rw [← List.take_append_drop 10 ((watchHistory.filter fun e =>
        containsSub e.titleUrl ("youtube.com/watch")).mergeSort
        (fun a b => decide (tv b.time ≤ tv a.time)))] at hsorted'
    exact (List.pairwise_append.mp hsorted').2.2

/-- A concrete four-entry history for the witness: three watch-page
entries (one id repeated) and one non-watch entry. -/
def histW : List HistoryEntry :=
  [{ titleUrl := ("https://www.youtube.com/watch?v=a1"), time := ("3") },
   { titleUrl := ("https://music.example.com/listen"), time := ("9") },
   { titleUrl := ("https://www.youtube.com/watch?v=a2"), time := ("7") },
   { titleUrl := ("https://www.youtube.com/watch?v=a1"), time := ("5") }]

/-- Witness for `processTakeoutFile_pipeline` at the concrete history
and API. -/
theorem processTakeoutFile_pipeline_witness :
    processTakeoutFile jsParseIntOr0 histW apiW =
      processVideoUrls (takeoutUrls jsParseIntOr0 histW) apiW none ∧
    (takeoutIds jsParseIntOr0 histW).Nodup ∧
    (takeoutUrls jsParseIntOr0 histW).length ≤ 10 :=
  ⟨(processTakeoutFile_pipeline jsParseIntOr0 histW apiW).1,
   (processTakeoutFile_pipeline jsParseIntOr0 histW apiW).2.2.1,
   (processTakeoutFile_pipeline jsParseIntOr0 histW apiW).2.2.2.1⟩
